import Mathlib

/-!
Shallow embedding of `0x02-redis_basic/exercise.py`: a Redis-backed cache
facade (`Cache`), two instrumentation wrappers (`count_calls`,
`call_history`) and a `replay` reporting function.

The backing store (Redis) is modelled as a finite association list from
string keys to values that are either byte strings or lists of byte
strings, with the subset of commands the program uses (GET, SET, INCR,
RPUSH, LRANGE 0 -1, FLUSHDB) given their documented semantics.  Python
byte strings are lists of natural numbers (byte values); text/bytes
conversion is an explicit executable UTF-8 codec.
-/

/-- Python-level exceptions that the embedded code can raise
(Redis WRONGTYPE errors surface as `redis.exceptions.ResponseError`;
the others are ordinary Python exceptions). -/
inductive PyErr where
  | wrongType
  | attrError
  | unicodeError
  | valueError
  | typeError
  deriving DecidableEq

/-- A raw byte payload, as the list of its byte values. -/
abbrev Bytes := List Nat

/-- A Redis value: a key holds either a string (byte payload) or a list
of byte payloads.  (The program uses no other Redis type.) -/
inductive RVal where
  | rstr (b : Bytes)
  | rlist (l : List Bytes)
  deriving DecidableEq

/-- The state of the single Redis database the program talks to. -/
structure RedisState where
  db : List (String × RVal)
  deriving DecidableEq

/-- Key lookup in the database. -/
def rlookup : List (String × RVal) → String → Option RVal
  | [], _ => none
  | (k', v) :: t, k => if k' = k then some v else rlookup t k

/-- Setting a key, replacing any previous value (of any type). -/
def assocSet : List (String × RVal) → String → RVal → List (String × RVal)
  | [], k, v => [(k, v)]
  | (k', v') :: t, k, v => if k' = k then (k, v) :: t else (k', v') :: assocSet t k v

theorem rlookup_assocSet (l : List (String × RVal)) (k k' : String) (v : RVal) :
    rlookup (assocSet l k v) k' = if k = k' then some v else rlookup l k' := by
  induction l with
  | nil =>
    by_cases h : k = k' <;> simp [assocSet, rlookup, h]
  | cons p t ih =>
    obtain ⟨k0, v0⟩ := p
    by_cases h0 : k0 = k
    · subst h0
      by_cases h : k0 = k' <;> simp [assocSet, rlookup, h]
    · by_cases h : k0 = k'
      · subst h
        have hkk : ¬ k = k0 := fun hh => h0 hh.symm
        simp [assocSet, rlookup, h0, hkk]
      · simp [assocSet, rlookup, h0, h, ih]

/-! ## UTF-8 codec

Executable standard UTF-8 encoding and strict decoding (rejecting
overlong forms, surrogates, out-of-range code points, bad continuation
bytes and truncation), modelling Python's `str.encode('utf-8')` and
`bytes.decode('utf-8')`. -/

/-- Encode one Unicode code point in UTF-8. -/
def utf8EncodeChar (c : Nat) : Bytes :=
  if c < 128 then [c]
  else if c < 2048 then [192 + c / 64, 128 + c % 64]
  else if c < 65536 then [224 + c / 4096, 128 + c / 64 % 64, 128 + c % 64]
  else [240 + c / 262144, 128 + c / 4096 % 64, 128 + c / 64 % 64, 128 + c % 64]

/-- UTF-8 encoding of a string. -/
def utf8Encode (s : String) : Bytes :=
  s.data.foldr (fun c r => utf8EncodeChar c.toNat ++ r) []

/-- Decode one UTF-8-encoded code point from the front of a byte list,
returning the code point and the remaining bytes (`none` on malformed
input: bad lead byte, bad continuation byte, overlong form, surrogate,
out of range, or truncation). -/
def utf8DecodeOne (bs : Bytes) : Option (Nat × Bytes) :=
  match bs with
  | [] => none
  | b :: t =>
    if b < 128 then some (b, t)
    else if b < 194 then none
    else if b < 224 then
      match t with
      | b1 :: t1 =>
        if 128 ≤ b1 ∧ b1 < 192 then some ((b - 192) * 64 + (b1 - 128), t1)
        else none
      | [] => none
    else if b < 240 then
      match t with
      | b1 :: b2 :: t1 =>
        if 128 ≤ b1 ∧ b1 < 192 ∧ 128 ≤ b2 ∧ b2 < 192 ∧
            2048 ≤ (b - 224) * 4096 + (b1 - 128) * 64 + (b2 - 128) ∧
            ((b - 224) * 4096 + (b1 - 128) * 64 + (b2 - 128) < 55296 ∨
              57344 ≤ (b - 224) * 4096 + (b1 - 128) * 64 + (b2 - 128)) then
          some ((b - 224) * 4096 + (b1 - 128) * 64 + (b2 - 128), t1)
        else none
      | _ => none
    else if b < 245 then
      match t with
      | b1 :: b2 :: b3 :: t1 =>
        if 128 ≤ b1 ∧ b1 < 192 ∧ 128 ≤ b2 ∧ b2 < 192 ∧ 128 ≤ b3 ∧ b3 < 192 ∧
            65536 ≤ (b - 240) * 262144 + (b1 - 128) * 4096 + (b2 - 128) * 64 + (b3 - 128) ∧
            (b - 240) * 262144 + (b1 - 128) * 4096 + (b2 - 128) * 64 + (b3 - 128) < 1114112 then
          some ((b - 240) * 262144 + (b1 - 128) * 4096 + (b2 - 128) * 64 + (b3 - 128), t1)
        else none
      | _ => none
    else none

/-- Fuel-driven decoding loop (the fuel is an upper bound on the number
of code points; `utf8DecodeAux` supplies the byte count, which always
suffices since each code point consumes at least one byte). -/
def utf8DecodeFrom : Nat → Bytes → Option (List Nat)
  | _, [] => some []
  | 0, _ :: _ => none
  | f + 1, b :: t =>
    match utf8DecodeOne (b :: t) with
    | some (c, rest) => (utf8DecodeFrom f rest).map (fun l => c :: l)
    | none => none

/-- Strict UTF-8 decoding to a list of code points (`none` on any
malformed input). -/
def utf8DecodeAux (bs : Bytes) : Option (List Nat) := utf8DecodeFrom bs.length bs

/-- Strict UTF-8 decoding to a string. -/
def utf8Decode (bs : Bytes) : Option String :=
  (utf8DecodeAux bs).map (fun cs => ⟨cs.map Char.ofNat⟩)

theorem utf8DecodeOne_encodeChar (n : Nat) (h : Nat.isValidChar n) (rest : Bytes) :
    utf8DecodeOne (utf8EncodeChar n ++ rest) = some (n, rest) := by
  have hlt : n < 1114112 := by
    rcases h with h | ⟨_, h2⟩
    · omega
    · exact h2
  have hsur : n < 55296 ∨ 57344 ≤ n := by
    rcases h with h | ⟨h1, _⟩
    · exact Or.inl h
    · right; omega
  by_cases h1 : n < 128
  · simp only [utf8EncodeChar, if_pos h1, List.cons_append, List.nil_append]
    simp only [utf8DecodeOne]
    rw [if_pos h1]
  · by_cases h2 : n < 2048
    · simp only [utf8EncodeChar, if_neg h1, if_pos h2, List.cons_append, List.nil_append]
      simp only [utf8DecodeOne]
      rw [if_neg (by omega), if_neg (by omega), if_pos (by omega), if_pos (by omega)]
      have ev : ((192 : Nat) + n / 64 - 192) * 64 + (128 + n % 64 - 128) = n := by omega
      rw [ev]
    · by_cases h3 : n < 65536
      · simp only [utf8EncodeChar, if_neg h1, if_neg h2, if_pos h3, List.cons_append,
          List.nil_append]
        simp only [utf8DecodeOne]
        rw [if_neg (by omega), if_neg (by omega), if_neg (by omega), if_pos (by omega),
          if_pos (by omega)]
        have ev : ((224 : Nat) + n / 4096 - 224) * 4096 + (128 + n / 64 % 64 - 128) * 64 +
            (128 + n % 64 - 128) = n := by omega
        rw [ev]
      · simp only [utf8EncodeChar, if_neg h1, if_neg h2, if_neg h3, List.cons_append,
          List.nil_append]
        simp only [utf8DecodeOne]
        rw [if_neg (by omega), if_neg (by omega), if_neg (by omega), if_neg (by omega),
          if_pos (by omega), if_pos (by omega)]
        have ev : ((240 : Nat) + n / 262144 - 240) * 262144 + (128 + n / 4096 % 64 - 128) * 4096 +
            (128 + n / 64 % 64 - 128) * 64 + (128 + n % 64 - 128) = n := by omega
        rw [ev]

theorem utf8DecodeOne_length (bs : Bytes) (c : Nat) (rest : Bytes)
    (h : utf8DecodeOne bs = some (c, rest)) : rest.length < bs.length := by
  match bs with
  | [] => simp [utf8DecodeOne] at h
  | b :: t =>
    simp only [utf8DecodeOne] at h
    split at h
    · simp only [Option.some.injEq, Prod.mk.injEq] at h
      obtain ⟨_, h2⟩ := h
      subst h2
      simp
    · split at h
      · simp at h
      · split at h
        · split at h
          · split at h
            · simp only [Option.some.injEq, Prod.mk.injEq] at h
              obtain ⟨_, h2⟩ := h
              subst h2
              simp
              omega
            · simp at h
          · simp at h
        · split at h
          · split at h
            · split at h
              · simp only [Option.some.injEq, Prod.mk.injEq] at h
                obtain ⟨_, h2⟩ := h
                subst h2
                simp
                omega
              · simp at h
            · simp at h
          · split at h
            · split at h
              · split at h
                · simp only [Option.some.injEq, Prod.mk.injEq] at h
                  obtain ⟨_, h2⟩ := h
                  subst h2
                  simp
                  omega
                · simp at h
              · simp at h
            · simp at h

theorem utf8DecodeFrom_nil (f : Nat) : utf8DecodeFrom f [] = some [] := by
  cases f <;> rfl

theorem utf8DecodeFrom_cons (f : Nat) (b : Nat) (t : Bytes) :
    utf8DecodeFrom (f + 1) (b :: t) =
      match utf8DecodeOne (b :: t) with
      | some (c, rest) => (utf8DecodeFrom f rest).map (fun l => c :: l)
      | none => none := rfl

theorem utf8DecodeFrom_fuel (f : Nat) (bs : Bytes) (hf : bs.length ≤ f) :
    utf8DecodeFrom f bs = utf8DecodeFrom bs.length bs := by
  induction f using Nat.strong_induction_on generalizing bs with
  | _ f ih =>
    match f, bs with
    | f, [] => rw [utf8DecodeFrom_nil, utf8DecodeFrom_nil]
    | 0, b :: t => simp at hf
    | f' + 1, b :: t =>
      have hle : t.length + 1 ≤ f' + 1 := by simpa using hf
      show utf8DecodeFrom (f' + 1) (b :: t) = utf8DecodeFrom (t.length + 1) (b :: t)
      rw [utf8DecodeFrom_cons, utf8DecodeFrom_cons]
      cases hd : utf8DecodeOne (b :: t) with
      | none => rfl
      | some p =>
        obtain ⟨c, rest⟩ := p
        have hlen : rest.length < t.length + 1 := by
          simpa using utf8DecodeOne_length (b :: t) c rest hd
        have e1 : utf8DecodeFrom f' rest = utf8DecodeFrom rest.length rest :=
          ih f' (by omega) rest (by omega)
        have e2 : utf8DecodeFrom t.length rest = utf8DecodeFrom rest.length rest :=
          ih t.length (by omega) rest (by omega)
        show Option.map (fun l => c :: l) (utf8DecodeFrom f' rest) =
          Option.map (fun l => c :: l) (utf8DecodeFrom t.length rest)
        rw [e1, e2]

theorem utf8DecodeAux_encodeChar (n : Nat) (h : Nat.isValidChar n) (rest : Bytes) :
    utf8DecodeAux (utf8EncodeChar n ++ rest) =
      (utf8DecodeAux rest).map (fun l => n :: l) := by
  have h1 : utf8DecodeOne (utf8EncodeChar n ++ rest) = some (n, rest) :=
    utf8DecodeOne_encodeChar n h rest
  have hne : utf8EncodeChar n ≠ [] := by
    by_cases c1 : n < 128
    · simp [utf8EncodeChar, c1]
    · by_cases c2 : n < 2048
      · simp [utf8EncodeChar, c1, c2]
      · by_cases c3 : n < 65536 <;> simp [utf8EncodeChar, c1, c2, c3]
  obtain ⟨e0, enct, henc⟩ : ∃ e0 enct, utf8EncodeChar n = e0 :: enct := by
    cases henc : utf8EncodeChar n with
    | nil => exact absurd henc hne
    | cons x xs => exact ⟨x, xs, rfl⟩
  rw [henc] at h1
  unfold utf8DecodeAux
  rw [henc]
  show utf8DecodeFrom ((enct ++ rest).length + 1) (e0 :: (enct ++ rest)) = _
  rw [utf8DecodeFrom_cons]
  rw [show e0 :: enct ++ rest = e0 :: (enct ++ rest) from rfl] at h1
  rw [h1]
  have hflen : rest.length ≤ (enct ++ rest).length := by
    simp
  show Option.map (fun l => n :: l) (utf8DecodeFrom (enct ++ rest).length rest) = _
  rw [utf8DecodeFrom_fuel ((enct ++ rest).length) rest hflen]

theorem utf8DecodeAux_encode_list (l : List Char) :
    utf8DecodeAux (l.foldr (fun c r => utf8EncodeChar c.toNat ++ r) []) =
      some (l.map Char.toNat) := by
  induction l with
  | nil => rfl
  | cons c t ih =>
    have hv : Nat.isValidChar c.toNat := c.valid
    rw [List.foldr_cons, utf8DecodeAux_encodeChar c.toNat hv, ih]
    rfl

/-- Decoding inverts encoding: the codec is a faithful model of
round-tripping text through UTF-8 bytes. -/
theorem utf8Decode_encode (s : String) : utf8Decode (utf8Encode s) = some s := by
  obtain ⟨l⟩ := s
  have h0 : utf8Encode ⟨l⟩ = l.foldr (fun c r => utf8EncodeChar c.toNat ++ r) [] := rfl
  rw [utf8Decode, h0, utf8DecodeAux_encode_list]
  show some (⟨(l.map Char.toNat).map Char.ofNat⟩ : String) = some ⟨l⟩
  congr 1
  congr 1
  rw [List.map_map]
  have he : (Char.ofNat ∘ Char.toNat) = id := by
    funext c
    exact Char.ofNat_toNat c
  rw [he, List.map_id]

/-! ## Decimal integers

Rendering (Python `repr`/`str` of `int`, also the format Redis stores
counters in) and parsing (the common core of Python `int(text)` and
Redis's integer parsing: an optional minus sign followed by at least one
decimal digit). -/

/-- Little-endian decimal digits of `n` (fuel-driven; `natDigitsRev`
supplies sufficient fuel). -/
def digitsRevFuel : Nat → Nat → List Nat
  | 0, _ => []
  | f + 1, n => if n = 0 then [] else n % 10 :: digitsRevFuel f (n / 10)

/-- Little-endian decimal digits of `n` (empty for 0). -/
def natDigitsRev (n : Nat) : List Nat := digitsRevFuel n n

/-- The value denoted by a little-endian digit list. -/
def valOfDigitsRev : List Nat → Nat
  | [] => 0
  | d :: t => d + 10 * valOfDigitsRev t

theorem valOfDigitsRev_digitsRevFuel (f : Nat) :
    ∀ n, n ≤ f → valOfDigitsRev (digitsRevFuel f n) = n := by
  induction f with
  | zero =>
    intro n h
    have h0 : n = 0 := by omega
    subst h0
    rfl
  | succ f ih =>
    intro n h
    by_cases h0 : n = 0
    · subst h0
      simp [digitsRevFuel, valOfDigitsRev]
    · simp only [digitsRevFuel, if_neg h0, valOfDigitsRev]
      rw [ih (n / 10) (by omega)]
      omega

theorem digitsRevFuel_lt_ten (f : Nat) :
    ∀ n d, d ∈ digitsRevFuel f n → d < 10 := by
  induction f with
  | zero =>
    intro n d hd
    simp [digitsRevFuel] at hd
  | succ f ih =>
    intro n d hd
    by_cases h0 : n = 0
    · subst h0
      simp [digitsRevFuel] at hd
    · simp only [digitsRevFuel, if_neg h0, List.mem_cons] at hd
      rcases hd with hd | hd
      · omega
      · exact ih _ _ hd

theorem natDigitsRev_ne_nil (n : Nat) (h0 : n ≠ 0) : natDigitsRev n ≠ [] := by
  unfold natDigitsRev
  cases hn : n with
  | zero => exact absurd hn h0
  | succ m => simp [digitsRevFuel]

/-- The character of a decimal digit. -/
def digitChar (d : Nat) : Char := Char.ofNat (48 + d)

/-- Decimal rendering of a natural number (Python `repr`). -/
def natRepr (n : Nat) : String :=
  if n = 0 then "0" else ⟨(natDigitsRev n).reverse.map digitChar⟩

/-- Decimal rendering of an integer (Python `repr`, and the format Redis
keeps `INCR` counters in). -/
def intRepr (i : Int) : String :=
  if i < 0 then "-" ++ natRepr i.natAbs else natRepr i.natAbs

/-- UTF-8 bytes of the decimal rendering of an integer. -/
def intReprBytes (i : Int) : Bytes := utf8Encode (intRepr i)

/-- Value of a decimal digit character. -/
def digitVal (c : Char) : Option Nat :=
  if 48 ≤ c.toNat ∧ c.toNat ≤ 57 then some (c.toNat - 48) else none

/-- Accumulating left-to-right digit parser. -/
def digitsValAux : Nat → List Char → Option Nat
  | acc, [] => some acc
  | acc, c :: t =>
    match digitVal c with
    | some d => digitsValAux (10 * acc + d) t
    | none => none

/-- Parse a nonempty string of decimal digits. -/
def decDigitsToNat : List Char → Option Nat
  | [] => none
  | l => digitsValAux 0 l

/-- Parse an optionally-signed decimal integer (the common core of
Python `int(text)` and Redis integer parsing). -/
def decStrToInt (s : String) : Option Int :=
  match s.data with
  | [] => none
  | c :: t =>
    if c = '-' then (decDigitsToNat t).map (fun n => -(n : Int))
    else (decDigitsToNat (c :: t)).map (fun n => (n : Int))

theorem decStrToInt_eq (s : String) (c : Char) (t : List Char) (h : s.data = c :: t) :
    decStrToInt s =
      if c = '-' then (decDigitsToNat t).map (fun n => -(n : Int))
      else (decDigitsToNat (c :: t)).map (fun n => (n : Int)) := by
  unfold decStrToInt
  rw [h]

/-- Parse the byte payload of a Redis counter as an integer (UTF-8
decode, then decimal parse). -/
def bytesToInt (b : Bytes) : Option Int := (utf8Decode b).bind decStrToInt

theorem toNat_ofNat_valid (m : Nat) (h : Nat.isValidChar m) : (Char.ofNat m).toNat = m := by
  simp only [Char.ofNat, h, dif_pos]
  simp [Char.ofNatAux, Char.toNat, UInt32.toNat, UInt32.ofNat', Nat.mod_eq_of_lt]

theorem digitChar_toNat (d : Nat) (h : d < 10) : (digitChar d).toNat = 48 + d := by
  unfold digitChar
  exact toNat_ofNat_valid (48 + d) (Or.inl (by omega))

theorem digitVal_digitChar (d : Nat) (h : d < 10) : digitVal (digitChar d) = some d := by
  unfold digitVal
  rw [digitChar_toNat d h, if_pos (by omega)]
  congr 1
  omega

theorem digitChar_ne_minus (d : Nat) (h : d < 10) : digitChar d ≠ '-' := by
  intro he
  have h1 := digitChar_toNat d h
  rw [he] at h1
  have h2 : ('-').toNat = 45 := rfl
  rw [h2] at h1
  omega

theorem digitsValAux_map (l : List Nat) (hl : ∀ d ∈ l, d < 10) :
    ∀ acc, digitsValAux acc (l.map digitChar) =
      some (l.foldl (fun a d => 10 * a + d) acc) := by
  induction l with
  | nil => intro acc; rfl
  | cons d t ih =>
    intro acc
    have hd : d < 10 := hl d (by simp)
    simp only [List.map_cons, digitsValAux, digitVal_digitChar d hd]
    exact ih (fun x hx => hl x (by simp [hx])) (10 * acc + d)

theorem foldl_digits_eq_val (l : List Nat) :
    l.reverse.foldl (fun a d => 10 * a + d) 0 = valOfDigitsRev l := by
  rw [List.foldl_reverse]
  induction l with
  | nil => rfl
  | cons d t ih =>
    simp only [List.foldr_cons, valOfDigitsRev, ih]
    omega

theorem decDigitsToNat_natRepr (n : Nat) : decDigitsToNat (natRepr n).data = some n := by
  by_cases h0 : n = 0
  · subst h0
    decide
  · have hne : natDigitsRev n ≠ [] := natDigitsRev_ne_nil n h0
    have hdata : (natRepr n).data = (natDigitsRev n).reverse.map digitChar := by
      simp [natRepr, h0]
    rw [hdata]
    have hlt : ∀ d ∈ (natDigitsRev n).reverse, d < 10 := by
      intro d hd
      exact digitsRevFuel_lt_ten n n d (List.mem_reverse.mp hd)
    have hne2 : (natDigitsRev n).reverse.map digitChar ≠ [] := by
      simp [hne]
    cases hl : (natDigitsRev n).reverse.map digitChar with
    | nil => exact absurd hl hne2
    | cons c t =>
      have : decDigitsToNat (c :: t) = digitsValAux 0 (c :: t) := rfl
      rw [this, ← hl, digitsValAux_map _ hlt 0, foldl_digits_eq_val]
      unfold natDigitsRev
      rw [valOfDigitsRev_digitsRevFuel n n (Nat.le_refl n)]

theorem natRepr_head_digit (n : Nat) :
    ∃ d t, d < 10 ∧ (natRepr n).data = digitChar d :: t := by
  by_cases h0 : n = 0
  · subst h0
    refine ⟨0, [], by omega, ?_⟩
    rfl
  · have hne : natDigitsRev n ≠ [] := natDigitsRev_ne_nil n h0
    cases hl : (natDigitsRev n).reverse with
    | nil => exact absurd (by simpa using congrArg List.reverse hl) hne
    | cons d t =>
      refine ⟨d, t.map digitChar, ?_, ?_⟩
      · apply digitsRevFuel_lt_ten n n d
        apply List.mem_reverse.mp
        show d ∈ (natDigitsRev n).reverse
        rw [hl]
        simp
      · have hdd : (natRepr n).data = (natDigitsRev n).reverse.map digitChar := by
          simp [natRepr, h0]
        rw [hdd, hl]
        rfl

/-- Parsing inverts decimal rendering of integers. -/
theorem decStrToInt_intRepr (i : Int) : decStrToInt (intRepr i) = some i := by
  by_cases hneg : i < 0
  · have hdata : (intRepr i).data = '-' :: (natRepr i.natAbs).data := by
      simp only [intRepr, if_pos hneg]
      rw [String.data_append]
      rfl
    rw [decStrToInt_eq (intRepr i) '-' (natRepr i.natAbs).data hdata]
    simp only [if_pos rfl]
    rw [decDigitsToNat_natRepr]
    show some (-((i.natAbs : Nat) : Int)) = some i
    congr 1
    omega
  · obtain ⟨d, t, hd, hdt⟩ := natRepr_head_digit i.natAbs
    have hdata : (intRepr i).data = digitChar d :: t := by
      simp only [intRepr, if_neg hneg]
      exact hdt
    rw [decStrToInt_eq (intRepr i) (digitChar d) t hdata]
    rw [if_neg (digitChar_ne_minus d hd), ← hdt]
    rw [decDigitsToNat_natRepr]
    show some (((i.natAbs : Nat) : Int)) = some i
    congr 1
    omega

/-- Parsing inverts rendering at the byte level. -/
theorem bytesToInt_intReprBytes (i : Int) : bytesToInt (intReprBytes i) = some i := by
  unfold bytesToInt intReprBytes
  rw [utf8Decode_encode]
  show decStrToInt (intRepr i) = some i
  exact decStrToInt_intRepr i

/-! ## Redis commands

The subset of commands the program issues, with Redis semantics: GET and
INCR are string-typed and raise WRONGTYPE on a list key; SET overwrites
unconditionally; INCR treats a missing key as 0 and errors on a
non-integer payload; RPUSH appends (creating the list) and raises
WRONGTYPE on a string key; LRANGE 0 -1 returns the whole list, [] for a
missing key; FLUSHDB clears everything. -/

/-- `GET key`. -/
def rget (st : RedisState) (k : String) : Except PyErr (Option Bytes) :=
  match rlookup st.db k with
  | none => .ok none
  | some (.rstr b) => .ok (some b)
  | some (.rlist _) => .error .wrongType

/-- `SET key v`. -/
def rset (st : RedisState) (k : String) (v : Bytes) : RedisState :=
  ⟨assocSet st.db k (.rstr v)⟩

/-- `INCR key`. -/
def rincr (st : RedisState) (k : String) : Except PyErr RedisState :=
  match rlookup st.db k with
  | none => .ok ⟨assocSet st.db k (.rstr (intReprBytes 1))⟩
  | some (.rstr b) =>
    match bytesToInt b with
    | some i => .ok ⟨assocSet st.db k (.rstr (intReprBytes (i + 1)))⟩
    | none => .error .valueError
  | some (.rlist _) => .error .wrongType

/-- `RPUSH key v`. -/
def rpush (st : RedisState) (k : String) (v : Bytes) : Except PyErr RedisState :=
  match rlookup st.db k with
  | none => .ok ⟨assocSet st.db k (.rlist [v])⟩
  | some (.rlist l) => .ok ⟨assocSet st.db k (.rlist (l ++ [v]))⟩
  | some (.rstr _) => .error .wrongType

/-- `LRANGE key 0 -1`. -/
def lrangeAll (st : RedisState) (k : String) : Except PyErr (List Bytes) :=
  match rlookup st.db k with
  | none => .ok []
  | some (.rlist l) => .ok l
  | some (.rstr _) => .error .wrongType

/-- `FLUSHDB`. -/
def flushdb (_st : RedisState) : RedisState := ⟨[]⟩

/-! ## Python values

The value types `Cache.store` accepts (`Union[str, bytes, int, float]`)
and their text renderings. -/

/-- Model of a Python float: finite floats are identified by their
`repr` string (CPython guarantees `float(repr(x)) == x` and `repr` is
injective on floats), with the special values kept symbolic.  The
constraint on `finite` records that a finite repr is never one of the
special spellings. -/
inductive PyFloat where
  | finite (r : String) (h : r ≠ "inf" ∧ r ≠ "-inf" ∧ r ≠ "nan")
  | inf
  | ninf
  | nan

/-- Python `repr` of a float. -/
def floatRepr : PyFloat → String
  | .finite r _ => r
  | .inf => "inf"
  | .ninf => "-inf"
  | .nan => "nan"

/-- Model of Python `float(text)` on `repr`-produced strings. -/
def pyFloatOfString (s : String) : PyFloat :=
  if h1 : s = "inf" then .inf
  else if h2 : s = "-inf" then .ninf
  else if h3 : s = "nan" then .nan
  else .finite s ⟨h1, h2, h3⟩

theorem pyFloatOfString_floatRepr (f : PyFloat) : pyFloatOfString (floatRepr f) = f := by
  cases f with
  | finite r h =>
    show pyFloatOfString r = PyFloat.finite r h
    unfold pyFloatOfString
    rw [dif_neg h.1, dif_neg h.2.1, dif_neg h.2.2]
  | inf => rfl
  | ninf => rfl
  | nan => rfl

/-- A value of one of the types `Cache.store` accepts. -/
inductive PyVal where
  | vstr (s : String)
  | vbytes (b : Bytes)
  | vint (i : Int)
  | vfloat (f : PyFloat)

/-- The single-quote character (Python's default repr delimiter). -/
def squote : Char := Char.ofNat 39

/-- The escaping of one character inside a `q`-delimited Python string
repr (backslash, delimiter, newline, carriage return, tab; other
characters are kept as-is — CPython additionally hex-escapes other
non-printables, which the program's data never contains). -/
def pyEscChar (q c : Char) : String :=
  if c = '\\' then "\\\\"
  else if c = q then "\\" ++ String.singleton q
  else if c = Char.ofNat 10 then "\\n"
  else if c = Char.ofNat 13 then "\\r"
  else if c = Char.ofNat 9 then "\\t"
  else String.singleton c

/-- Python `repr` of a text string: single-quote delimited, switching to
double quotes when the text contains a single quote but no double
quote. -/
def pyReprStr (s : String) : String :=
  let q := if s.data.contains squote && !(s.data.contains '"') then '"' else squote
  String.singleton q ++ String.join (s.data.map (pyEscChar q)) ++ String.singleton q

/-- Lowercase hexadecimal digit. -/
def hexDigitChar (n : Nat) : Char :=
  if n < 10 then Char.ofNat (48 + n) else Char.ofNat (87 + n)

/-- The rendering of one byte inside a Python bytes repr. -/
def pyEscByte (b : Nat) : String :=
  if b = 92 then "\\\\"
  else if b = 39 then "\\" ++ String.singleton squote
  else if b = 9 then "\\t"
  else if b = 10 then "\\n"
  else if b = 13 then "\\r"
  else if 32 ≤ b ∧ b ≤ 126 then String.singleton (Char.ofNat b)
  else "\\x" ++ String.singleton (hexDigitChar (b / 16 % 16)) ++
    String.singleton (hexDigitChar (b % 16))

/-- Python `repr` of a bytes object (single-quote delimited; CPython's
quote switch for payloads containing a quote is not modelled, nor
reachable from the program's data). -/
def pyReprBytes (bs : Bytes) : String :=
  "b" ++ String.singleton squote ++ String.join (bs.map pyEscByte) ++ String.singleton squote

/-- Python `repr` of a supported value. -/
def pyRepr : PyVal → String
  | .vstr s => pyReprStr s
  | .vbytes b => pyReprBytes b
  | .vint i => intRepr i
  | .vfloat f => floatRepr f

/-- Python `str` of a supported value (identical to `repr` except on
text, which is returned unquoted). -/
def pyStr : PyVal → String
  | .vstr s => s
  | .vbytes b => pyReprBytes b
  | .vint i => intRepr i
  | .vfloat f => floatRepr f

/-- Python `str` of a tuple of supported values (elements are rendered
with `repr`, a one-element tuple keeps its trailing comma). -/
def pyStrTuple : List PyVal → String
  | [] => "()"
  | [v] => "(" ++ pyRepr v ++ ",)"
  | l => "(" ++ String.intercalate ", " (l.map pyRepr) ++ ")"

/-- redis-py's encoding of a value passed to `SET`: text is UTF-8
encoded, bytes are kept, int and float are rendered with `repr` and
UTF-8 encoded. -/
def encodeVal : PyVal → Bytes
  | .vstr s => utf8Encode s
  | .vbytes b => b
  | .vint i => utf8Encode (intRepr i)
  | .vfloat f => utf8Encode (floatRepr f)

/-! ## The Cache facade and the decorators -/

/-- The fully-qualified name of the store method (`functools.wraps`
preserves it through both decorators). -/
def storeName : String := "Cache.store"

/-- A method bound to the facade, as seen by the decorators: positional
arguments, keyword arguments and the Redis state in; the result (or the
raised exception) and the updated Redis state out. -/
def Method : Type :=
  List PyVal → List (String × PyVal) → RedisState → Except PyErr PyVal × RedisState

/-- `count_calls` decorator: increment the counter stored under the
method's qualified name, then invoke the wrapped method and return its
result. -/
def count_calls (key : String) (method : Method) : Method := fun args kwargs st =>
  match rincr st key with
  | .error e => (.error e, st)
  | .ok st1 => method args kwargs st1

/-- `call_history` decorator: invoke the wrapped method first; if it
succeeds, append `str(args)` to `<name>:inputs` and `str(output)` to
`<name>:outputs`, then return the output; if it raises, propagate the
exception without touching either list. -/
def call_history (name : String) (method : Method) : Method := fun args kwargs st =>
  match method args kwargs st with
  | (.error e, st1) => (.error e, st1)
  | (.ok output, st1) =>
    match rpush st1 (name ++ ":inputs") (utf8Encode (pyStrTuple args)) with
    | .error e => (.error e, st1)
    | .ok st2 =>
      match rpush st2 (name ++ ":outputs") (utf8Encode (pyStr output)) with
      | .error e => (.error e, st2)
      | .ok st3 => (.ok output, st3)

/-- Python's binding of the single `data` parameter of
`store(self, data)` from positional and keyword arguments (`none` when
the call signature does not fit, which raises `TypeError`). -/
def storeDataOf : List PyVal → List (String × PyVal) → Option PyVal
  | [d], [] => some d
  | [], [(p, d)] => if p = "data" then some d else none
  | _, _ => none

/-- The undecorated body of `Cache.store`, with the freshly generated
key passed explicitly (modelling `str(uuid.uuid4())`): bind the single
`data` parameter (positionally or by keyword), `SET` it under the key,
return the key. -/
def storeMethod (uuid : String) : Method := fun args kwargs st =>
  match storeDataOf args kwargs with
  | some data => (.ok (.vstr uuid), rset st uuid (encodeVal data))
  | none => (.error .typeError, st)

/-- `Cache.store` as decorated in the source: `@count_calls` outside
`@call_history` outside the body, both keyed by the preserved qualified
name. -/
def Cache.store (uuid : String) : Method :=
  count_calls storeName (call_history storeName (storeMethod uuid))

/-- `Cache.__init__`: connect to Redis and flush the database. -/
def Cache.init (st : RedisState) : RedisState := flushdb st

/-- `Cache.get`: return the raw payload (the missing sentinel `none`
when the key is absent), or `fn` applied to it — including to the
missing sentinel — when a decode function is supplied. -/
def Cache.get {α : Type} (st : RedisState) (key : String)
    (fn : Option (Option Bytes → α)) : Except PyErr (Option Bytes ⊕ α) :=
  match rget st key with
  | .error e => .error e
  | .ok data =>
    match fn with
    | some f => .ok (.inr (f data))
    | none => .ok (.inl data)

/-- `Cache.get_str`: decode the payload as UTF-8, propagating failure
(`AttributeError` on a missing key, `UnicodeDecodeError` on bad
bytes). -/
def Cache.get_str (st : RedisState) (key : String) : Except PyErr String :=
  match rget st key with
  | .error e => .error e
  | .ok none => .error .attrError
  | .ok (some b) =>
    match utf8Decode b with
    | none => .error .unicodeError
    | some s => .ok s

/-- `Cache.get_int`: decode the payload as UTF-8 and parse it as an
integer, returning 0 on any failure inside the `try` block (missing
key, invalid UTF-8, non-numeric text). -/
def Cache.get_int (st : RedisState) (key : String) : Except PyErr Int :=
  match rget st key with
  | .error e => .error e
  | .ok v =>
    .ok (match v with
      | none => 0
      | some b =>
        match utf8Decode b with
        | none => 0
        | some s =>
          match decStrToInt s with
          | none => 0
          | some i => i)

/-- Model of Python `float(payload)` as passed for `fn` in
`Cache.get(key, float)`: raises on a missing payload (`TypeError`) or a
payload that is not the text of a float (`ValueError` — only
`repr`-produced texts are modelled as succeeding). -/
def pyFloatFn (payload : Option Bytes) : Except PyErr PyFloat :=
  match payload with
  | none => .error .typeError
  | some b =>
    match utf8Decode b with
    | none => .error .valueError
    | some s => .ok (pyFloatOfString s)

/-- Decode a byte payload, substituting a default on failure (the
`try/except` blocks around `.decode('utf-8')` in `replay`). -/
def decodeOr (dflt : String) (b : Bytes) : String := (utf8Decode b).getD dflt

/-- `replay`: read the counter at the operation's name (0 on decode
failure), the full inputs and outputs lists, pair them positionally
(`zip` stops at the shorter), and return the printed lines: header,
then one `name(*input) -> output` line per pair (entries that fail
decoding render as empty strings). -/
def replay (st : RedisState) (fname : String) : Except PyErr (List String) :=
  match rget st fname with
  | .error e => .error e
  | .ok nOpt =>
    let nStr : String := match nOpt with
      | none => "0"
      | some b => (utf8Decode b).getD "0"
    match lrangeAll st (fname ++ ":inputs") with
    | .error e => .error e
    | .ok ins =>
      match lrangeAll st (fname ++ ":outputs") with
      | .error e => .error e
      | .ok outs =>
        .ok ((fname ++ " was called " ++ nStr ++ " times:") ::
          (List.zip ins outs).map (fun p =>
            fname ++ "(*" ++ decodeOr "" p.1 ++ ") -> " ++ decodeOr "" p.2))

/-- One call of the decorated store: the key the mocked UUID generator
yields, the positional arguments, and the keyword arguments. -/
structure StoreCall where
  uuid : String
  args : List PyVal
  kwargs : List (String × PyVal)

/-- Run a sequence of calls of the decorated store, keeping the final
Redis state. -/
def iterateStore : List StoreCall → RedisState → RedisState
  | [], st => st
  | c :: cs, st => iterateStore cs (Cache.store c.uuid c.args c.kwargs st).2

/-- Run a sequence of (args, kwargs) calls of a method, keeping the
final Redis state. -/
def iterateMethod (m : Method) :
    List (List PyVal × List (String × PyVal)) → RedisState → RedisState
  | [], st => st
  | a :: rest, st => iterateMethod m rest (m a.1 a.2 st).2

/-- The textual shape of `str(uuid.uuid4())`: 36 characters drawn from
lowercase hex digits and the hyphen. -/
def isUuidFormat (s : String) : Bool :=
  decide (s.data.length = 36) &&
  s.data.all (fun c =>
    decide (c = '-' ∨ (48 ≤ c.toNat ∧ c.toNat ≤ 57) ∨ (97 ≤ c.toNat ∧ c.toNat ≤ 102)))

theorem uuid_ne_instrumentation_keys (u : String) (h : isUuidFormat u = true) :
    u ≠ storeName ∧ u ≠ storeName ++ ":inputs" ∧ u ≠ storeName ++ ":outputs" := by
  have hlen : u.data.length = 36 := by
    simp only [isUuidFormat, Bool.and_eq_true, decide_eq_true_eq] at h
    exact h.1
  refine ⟨?_, ?_, ?_⟩ <;> intro he <;> rw [he] at hlen <;> exact absurd hlen (by decide)

/-! ## State lemmas -/

/-- The key of the recorded-inputs list. -/
def inputsKey : String := storeName ++ ":inputs"

/-- The key of the recorded-outputs list. -/
def outputsKey : String := storeName ++ ":outputs"

/-- The list stored at `k` (empty when the key is missing or holds a
string). -/
def listsOf (st : RedisState) (k : String) : List Bytes :=
  match rlookup st.db k with
  | some (.rlist l) => l
  | _ => []

/-- `k` is pushable: missing or already a list. -/
def listKeyOk (st : RedisState) (k : String) : Prop :=
  match rlookup st.db k with
  | some (.rstr _) => False
  | _ => True

/-- `k` can be INCRed: missing, or a string parsing as an integer. -/
def counterOk (st : RedisState) (k : String) : Prop :=
  match rlookup st.db k with
  | none => True
  | some (.rstr b) => (bytesToInt b).isSome
  | some (.rlist _) => False

/-- The integer value of the counter at `k`, when readable. -/
def counterRead (st : RedisState) (k : String) : Option Int :=
  match rlookup st.db k with
  | some (.rstr b) => bytesToInt b
  | _ => none

theorem rset_lookup (st : RedisState) (k : String) (v : Bytes) (k' : String) :
    rlookup (rset st k v).db k' = if k = k' then some (.rstr v) else rlookup st.db k' :=
  rlookup_assocSet st.db k k' (.rstr v)

theorem listsOf_congr (st st' : RedisState) (k : String)
    (h : rlookup st'.db k = rlookup st.db k) : listsOf st' k = listsOf st k := by
  unfold listsOf
  rw [h]

theorem listKeyOk_congr (st st' : RedisState) (k : String)
    (h : rlookup st'.db k = rlookup st.db k) : listKeyOk st k → listKeyOk st' k := by
  unfold listKeyOk
  rw [h]
  exact id

theorem rpush_ok (st : RedisState) (k : String) (v : Bytes) (h : listKeyOk st k) :
    rpush st k v = .ok ⟨assocSet st.db k (.rlist (listsOf st k ++ [v]))⟩ := by
  unfold rpush listsOf
  unfold listKeyOk at h
  cases hl : rlookup st.db k with
  | none => rfl
  | some rv =>
    rw [hl] at h
    cases rv with
    | rstr b => exact absurd h (fun x => x)
    | rlist l => rfl

theorem rpush_lookup_preserve (st : RedisState) (k : String) (v : Bytes) (k' : String)
    (hk : k ≠ k') (st' : RedisState) (h : rpush st k v = .ok st') :
    rlookup st'.db k' = rlookup st.db k' := by
  unfold rpush at h
  cases hl : rlookup st.db k with
  | none =>
    rw [hl] at h
    simp only [Except.ok.injEq] at h
    subst h
    rw [rlookup_assocSet, if_neg hk]
  | some rv =>
    cases rv with
    | rstr b => rw [hl] at h; exact absurd h (by simp)
    | rlist l =>
      rw [hl] at h
      simp only [Except.ok.injEq] at h
      subst h
      rw [rlookup_assocSet, if_neg hk]

theorem rincr_absent (st : RedisState) (k : String) (h : rlookup st.db k = none) :
    rincr st k = .ok ⟨assocSet st.db k (.rstr (intReprBytes 1))⟩ := by
  unfold rincr
  rw [h]

theorem rincr_int (st : RedisState) (k : String) (i : Int)
    (h : rlookup st.db k = some (.rstr (intReprBytes i))) :
    rincr st k = .ok ⟨assocSet st.db k (.rstr (intReprBytes (i + 1)))⟩ := by
  unfold rincr
  rw [h]
  simp only [bytesToInt_intReprBytes]

theorem storeMethod_of_data (u : String) (args : List PyVal)
    (kwargs : List (String × PyVal)) (d : PyVal) (st : RedisState)
    (h : storeDataOf args kwargs = some d) :
    storeMethod u args kwargs st = (.ok (.vstr u), rset st u (encodeVal d)) := by
  unfold storeMethod
  rw [h]

theorem storeMethod_no_data (u : String) (args : List PyVal)
    (kwargs : List (String × PyVal)) (st : RedisState)
    (h : storeDataOf args kwargs = none) :
    storeMethod u args kwargs st = (.error .typeError, st) := by
  unfold storeMethod
  rw [h]

/-! ## Behavior of the wrapped store -/

/-- A well-formed call of the store: a UUID-shaped fresh key and a
binding `data` argument. -/
def goodStoreCall (c : StoreCall) : Prop :=
  isUuidFormat c.uuid = true ∧ (storeDataOf c.args c.kwargs).isSome

/-- The history-wrapped (but not counted) store, on one recorded call. -/
def historyStore (c : StoreCall) (st : RedisState) : Except PyErr PyVal × RedisState :=
  call_history storeName (storeMethod c.uuid) c.args c.kwargs st

/-- Run a sequence of calls of the history-wrapped store. -/
def iterateHistoryStore : List StoreCall → RedisState → RedisState
  | [], st => st
  | c :: cs, st => iterateHistoryStore cs (historyStore c st).2

theorem historyStore_step (u : String) (args : List PyVal)
    (kwargs : List (String × PyVal)) (d : PyVal) (st : RedisState)
    (hu : isUuidFormat u = true)
    (hd : storeDataOf args kwargs = some d)
    (hin : listKeyOk st inputsKey) (hout : listKeyOk st outputsKey) :
    ∃ st3, call_history storeName (storeMethod u) args kwargs st = (.ok (.vstr u), st3) ∧
      listsOf st3 inputsKey = listsOf st inputsKey ++ [utf8Encode (pyStrTuple args)] ∧
      listsOf st3 outputsKey = listsOf st outputsKey ++ [utf8Encode u] ∧
      listKeyOk st3 inputsKey ∧ listKeyOk st3 outputsKey ∧
      rlookup st3.db u = some (.rstr (encodeVal d)) ∧
      (∀ k', k' ≠ inputsKey → k' ≠ outputsKey → k' ≠ u →
        rlookup st3.db k' = rlookup st.db k') := by
  obtain ⟨hu1, hu2, hu3⟩ := uuid_ne_instrumentation_keys u hu
  have hm : storeMethod u args kwargs st = (.ok (.vstr u), rset st u (encodeVal d)) :=
    storeMethod_of_data u args kwargs d st hd
  set st1 := rset st u (encodeVal d) with hst1
  have hlook1 : ∀ k', u ≠ k' → rlookup st1.db k' = rlookup st.db k' := by
    intro k' hk
    rw [hst1, rset_lookup, if_neg hk]
  have hin1 : listKeyOk st1 inputsKey := listKeyOk_congr st st1 _ (hlook1 _ hu2) hin
  have hout1 : listKeyOk st1 outputsKey := listKeyOk_congr st st1 _ (hlook1 _ hu3) hout
  have hp1 : rpush st1 inputsKey (utf8Encode (pyStrTuple args)) =
      .ok ⟨assocSet st1.db inputsKey
        (.rlist (listsOf st1 inputsKey ++ [utf8Encode (pyStrTuple args)]))⟩ :=
    rpush_ok st1 inputsKey _ hin1
  set st2 : RedisState := ⟨assocSet st1.db inputsKey
    (.rlist (listsOf st1 inputsKey ++ [utf8Encode (pyStrTuple args)]))⟩ with hst2
  have hlook2 : ∀ k', inputsKey ≠ k' → rlookup st2.db k' = rlookup st1.db k' := by
    intro k' hk
    rw [hst2]
    show rlookup (assocSet st1.db inputsKey _) k' = rlookup st1.db k'
    rw [rlookup_assocSet, if_neg hk]
  have hIO : inputsKey ≠ outputsKey := by decide
  have hout2 : listKeyOk st2 outputsKey := listKeyOk_congr st1 st2 _ (hlook2 _ hIO) hout1
  have hp2 : rpush st2 outputsKey (utf8Encode (pyStr (.vstr u))) =
      .ok ⟨assocSet st2.db outputsKey
        (.rlist (listsOf st2 outputsKey ++ [utf8Encode (pyStr (.vstr u))]))⟩ :=
    rpush_ok st2 outputsKey _ hout2
  set st3 : RedisState := ⟨assocSet st2.db outputsKey
    (.rlist (listsOf st2 outputsKey ++ [utf8Encode (pyStr (.vstr u))]))⟩ with hst3
  have hlook3 : ∀ k', outputsKey ≠ k' → rlookup st3.db k' = rlookup st2.db k' := by
    intro k' hk
    rw [hst3]
    show rlookup (assocSet st2.db outputsKey _) k' = rlookup st2.db k'
    rw [rlookup_assocSet, if_neg hk]
  refine ⟨st3, ?_, ?_, ?_, ?_, ?_, ?_, ?_⟩
  · unfold call_history
    have hp1' := hp1
    have hp2' := hp2
    unfold inputsKey at hp1'
    unfold outputsKey at hp2'
    simp only [hm, hp1', hp2']
  · have e1 : listsOf st3 inputsKey = listsOf st2 inputsKey :=
      listsOf_congr st2 st3 _ (hlook3 _ (fun hh => hIO hh.symm))
    have e2 : listsOf st2 inputsKey =
        listsOf st1 inputsKey ++ [utf8Encode (pyStrTuple args)] := by
      unfold listsOf
      rw [hst2]
      show (match rlookup (assocSet st1.db inputsKey _) inputsKey with
        | some (.rlist l) => l
        | _ => []) = _
      rw [rlookup_assocSet, if_pos rfl]
      rfl
    have e3 : listsOf st1 inputsKey = listsOf st inputsKey :=
      listsOf_congr st st1 _ (hlook1 _ hu2)
    rw [e1, e2, e3]
  · have e2 : listsOf st3 outputsKey =
        listsOf st2 outputsKey ++ [utf8Encode (pyStr (.vstr u))] := by
      unfold listsOf
      rw [hst3]
      show (match rlookup (assocSet st2.db outputsKey _) outputsKey with
        | some (.rlist l) => l
        | _ => []) = _
      rw [rlookup_assocSet, if_pos rfl]
      rfl
    have e3 : listsOf st2 outputsKey = listsOf st1 outputsKey :=
      listsOf_congr st1 st2 _ (hlook2 _ hIO)
    have e4 : listsOf st1 outputsKey = listsOf st outputsKey :=
      listsOf_congr st st1 _ (hlook1 _ hu3)
    rw [e2, e3, e4]
    rfl
  · apply listKeyOk_congr st2 st3 _ (hlook3 _ (fun hh => hIO hh.symm))
    unfold listKeyOk
    rw [hst2]
    show (match rlookup (assocSet st1.db inputsKey _) inputsKey with
      | some (.rstr _) => False
      | _ => True) 
    rw [rlookup_assocSet, if_pos rfl]
    trivial
  · unfold listKeyOk
    rw [hst3]
    show (match rlookup (assocSet st2.db outputsKey _) outputsKey with
      | some (.rstr _) => False
      | _ => True)
    rw [rlookup_assocSet, if_pos rfl]
    trivial
  · rw [hlook3 u (fun hh => hu3 hh.symm), hlook2 u (fun hh => hu2 hh.symm), hst1,
      rset_lookup, if_pos rfl]
  · intro k' hk1 hk2 hk3
    rw [hlook3 k' (fun hh => hk2 hh.symm), hlook2 k' (fun hh => hk1 hh.symm),
      hlook1 k' (fun hh => hk3 hh.symm)]

theorem historyStore_preserve_other (c : StoreCall) (st : RedisState) (k' : String)
    (hk1 : k' ≠ inputsKey) (hk2 : k' ≠ outputsKey) (hk3 : k' ≠ c.uuid) :
    rlookup ((historyStore c st).2).db k' = rlookup st.db k' := by
  unfold historyStore call_history
  cases hd : storeDataOf c.args c.kwargs with
  | none =>
    simp only [storeMethod_no_data c.uuid c.args c.kwargs st hd]
  | some d =>
    simp only [storeMethod_of_data c.uuid c.args c.kwargs d st hd]
    have h1 : rlookup (rset st c.uuid (encodeVal d)).db k' = rlookup st.db k' := by
      rw [rset_lookup, if_neg (fun hh => hk3 hh.symm)]
    cases hp1 : rpush (rset st c.uuid (encodeVal d)) (storeName ++ ":inputs")
        (utf8Encode (pyStrTuple c.args)) with
    | error e =>
      simp only [hp1]
      exact h1
    | ok st2 =>
      have h2 : rlookup st2.db k' = rlookup (rset st c.uuid (encodeVal d)).db k' :=
        rpush_lookup_preserve _ _ _ k' (fun hh => hk1 hh.symm) st2 hp1
      cases hp2 : rpush st2 (storeName ++ ":outputs")
          (utf8Encode (pyStr (.vstr c.uuid))) with
      | error e =>
        simp only [hp1, hp2]
        exact h2.trans h1
      | ok st3 =>
        have h3 : rlookup st3.db k' = rlookup st2.db k' :=
          rpush_lookup_preserve _ _ _ k' (fun hh => hk2 hh.symm) st3 hp2
        simp only [hp1, hp2]
        exact (h3.trans h2).trans h1

theorem iterateHistoryStore_lists (calls : List StoreCall) :
    ∀ st : RedisState, (∀ c ∈ calls, goodStoreCall c) →
      listKeyOk st inputsKey → listKeyOk st outputsKey →
      listsOf (iterateHistoryStore calls st) inputsKey =
        listsOf st inputsKey ++ calls.map (fun c => utf8Encode (pyStrTuple c.args)) ∧
      listsOf (iterateHistoryStore calls st) outputsKey =
        listsOf st outputsKey ++ calls.map (fun c => utf8Encode c.uuid) := by
  induction calls with
  | nil =>
    intro st _ _ _
    constructor <;> simp [iterateHistoryStore]
  | cons c cs ih =>
    intro st hg hin hout
    obtain ⟨hu, hds⟩ := hg c (by simp)
    obtain ⟨d, hd⟩ := Option.isSome_iff_exists.mp hds
    obtain ⟨st3, hcall, hl1, hl2, hk1, hk2, _, _⟩ :=
      historyStore_step c.uuid c.args c.kwargs d st hu hd hin hout
    have hstep : iterateHistoryStore (c :: cs) st = iterateHistoryStore cs st3 := by
      simp only [iterateHistoryStore, historyStore, hcall]
    rw [hstep]
    obtain ⟨e1, e2⟩ := ih st3 (fun x hx => hg x (by simp [hx])) hk1 hk2
    rw [e1, e2, hl1, hl2]
    constructor <;> simp

/-! ## Counter behavior -/

theorem count_calls_counter_aux (m : Method)
    (hm : ∀ args kwargs st, rlookup ((m args kwargs st).2).db storeName =
      rlookup st.db storeName)
    (calls : List (List PyVal × List (String × PyVal))) :
    ∀ (st : RedisState) (i : Int),
      rlookup st.db storeName = some (.rstr (intReprBytes i)) →
      rlookup (iterateMethod (count_calls storeName m) calls st).db storeName =
        some (.rstr (intReprBytes (i + calls.length))) := by
  induction calls with
  | nil =>
    intro st i h
    simpa [iterateMethod] using h
  | cons c cs ih =>
    intro st i h
    have hincr : rincr st storeName =
        .ok ⟨assocSet st.db storeName (.rstr (intReprBytes (i + 1)))⟩ :=
      rincr_int st storeName i h
    have hstep : iterateMethod (count_calls storeName m) (c :: cs) st =
        iterateMethod (count_calls storeName m) cs
          ((m c.1 c.2 ⟨assocSet st.db storeName (.rstr (intReprBytes (i + 1)))⟩).2) := by
      simp only [iterateMethod, count_calls, hincr]
    rw [hstep]
    have hpre : rlookup ((m c.1 c.2
        ⟨assocSet st.db storeName (.rstr (intReprBytes (i + 1)))⟩).2).db storeName =
        some (.rstr (intReprBytes (i + 1))) := by
      rw [hm]
      show rlookup (assocSet st.db storeName _) storeName = _
      rw [rlookup_assocSet, if_pos rfl]
    have := ih _ (i + 1) hpre
    rw [this]
    congr 3
    simp only [List.length_cons]
    push_cast
    omega

theorem rincr_of_counterOk (st : RedisState) (k : String) (h : counterOk st k) :
    ∃ j st', rincr st k = .ok st' ∧ st'.db = assocSet st.db k (.rstr (intReprBytes j)) := by
  unfold counterOk at h
  cases hl : rlookup st.db k with
  | none => exact ⟨1, _, rincr_absent st k hl, rfl⟩
  | some rv =>
    rw [hl] at h
    cases rv with
    | rstr b =>
      obtain ⟨i, hi⟩ := Option.isSome_iff_exists.mp h
      refine ⟨i + 1, _, ?_, rfl⟩
      unfold rincr
      rw [hl]
      simp only [hi]
    | rlist l => exact absurd h (fun x => x)

/-! ## Claim theorems -/

/-- C1: for the counter-instrumented operation (`count_calls` wrapping
`Cache.store`), each invocation increments the counter stored under the
operation's qualified name before the wrapped method executes, and the
increment is unconditional: for any wrapped method that does not itself
touch the counter key — whether its calls succeed or raise — N calls
from a fresh state leave the counter at exactly N, for every sequence
of argument values. -/
theorem count_calls_exact_count (m : Method)
    (hm : ∀ args kwargs st, rlookup ((m args kwargs st).2).db storeName =
      rlookup st.db storeName)
    (calls : List (List PyVal × List (String × PyVal))) (st : RedisState)
    (h0 : rlookup st.db storeName = none) (hne : calls ≠ []) :
    (∀ args kwargs st' st1, rincr st' storeName = .ok st1 →
      count_calls storeName m args kwargs st' = m args kwargs st1) ∧
    counterRead (iterateMethod (count_calls storeName m) calls st) storeName =
      some (calls.length : Int) := by
  constructor
  · intro args kwargs st' st1 h
    unfold count_calls
    rw [h]
  · cases calls with
    | nil => exact absurd rfl hne
    | cons c cs =>
      have hincr : rincr st storeName =
          .ok ⟨assocSet st.db storeName (.rstr (intReprBytes 1))⟩ :=
        rincr_absent st storeName h0
      have hstep : iterateMethod (count_calls storeName m) (c :: cs) st =
          iterateMethod (count_calls storeName m) cs
            ((m c.1 c.2 ⟨assocSet st.db storeName (.rstr (intReprBytes 1))⟩).2) := by
        simp only [iterateMethod, count_calls, hincr]
      rw [hstep]
      have hpre : rlookup ((m c.1 c.2
          ⟨assocSet st.db storeName (.rstr (intReprBytes 1))⟩).2).db storeName =
          some (.rstr (intReprBytes 1)) := by
        rw [hm]
        show rlookup (assocSet st.db storeName _) storeName = _
        rw [rlookup_assocSet, if_pos rfl]
      have hfin := count_calls_counter_aux m hm cs _ 1 hpre
      simp only [counterRead, hfin, bytesToInt_intReprBytes]
      congr 1
      simp only [List.length_cons]
      push_cast
      omega

/-- C1 witness: two calls of the fully decorated store (with UUID-shaped
fresh keys) from a flushed database leave the counter at 2. -/
theorem count_calls_exact_count_witness :
    counterRead (iterateMethod (count_calls storeName
        (call_history storeName (storeMethod "00000000-0000-4000-8000-000000000000")))
      [([.vint 5], []), ([.vstr "a"], [])] (⟨[]⟩ : RedisState)) storeName =
      some (2 : Int) := by
  have hm : ∀ args kwargs st,
      rlookup ((call_history storeName
        (storeMethod "00000000-0000-4000-8000-000000000000") args kwargs st).2).db storeName =
        rlookup st.db storeName := by
    intro args kwargs st
    exact historyStore_preserve_other
      ⟨"00000000-0000-4000-8000-000000000000", args, kwargs⟩ st storeName
      (by decide) (by decide)
      ((by decide : storeName ≠ "00000000-0000-4000-8000-000000000000") : _)
  exact (count_calls_exact_count _ hm [([.vint 5], []), ([.vstr "a"], [])] ⟨[]⟩ rfl
    (by simp)).2

/-- C2: for the history-instrumented operation (`call_history` wrapping
`Cache.store`), nothing is recorded when the wrapped call raises (the
state is unchanged on error), and after N successful calls the inputs
and outputs lists extend by exactly the N rendered inputs and the N
returned keys, positionally paired — in particular, from empty lists
both reach length exactly N. -/
theorem call_history_success_only_pairing :
    (∀ (u : String) (args : List PyVal) (kwargs : List (String × PyVal))
        (st : RedisState) (e : PyErr) (st1 : RedisState),
        storeMethod u args kwargs st = (.error e, st1) →
        call_history storeName (storeMethod u) args kwargs st = (.error e, st1) ∧ st1 = st) ∧
    (∀ (calls : List StoreCall) (st : RedisState),
        (∀ c ∈ calls, goodStoreCall c) →
        listKeyOk st inputsKey → listKeyOk st outputsKey →
        listsOf (iterateHistoryStore calls st) inputsKey =
          listsOf st inputsKey ++ calls.map (fun c => utf8Encode (pyStrTuple c.args)) ∧
        listsOf (iterateHistoryStore calls st) outputsKey =
          listsOf st outputsKey ++ calls.map (fun c => utf8Encode c.uuid) ∧
        (listsOf st inputsKey = [] → listsOf st outputsKey = [] →
          (listsOf (iterateHistoryStore calls st) inputsKey).length = calls.length ∧
          (listsOf (iterateHistoryStore calls st) outputsKey).length = calls.length)) := by
  constructor
  · intro u args kwargs st e st1 h
    cases hd : storeDataOf args kwargs with
    | some d =>
      rw [storeMethod_of_data u args kwargs d st hd] at h
      exact absurd h (by simp)
    | none =>
      rw [storeMethod_no_data u args kwargs st hd] at h
      simp only [Prod.mk.injEq, Except.error.injEq] at h
      obtain ⟨he, hst⟩ := h
      subst he
      subst hst
      constructor
      · unfold call_history
        simp only [storeMethod_no_data u args kwargs st hd]
      · rfl
  · intro calls st hg hin hout
    obtain ⟨e1, e2⟩ := iterateHistoryStore_lists calls st hg hin hout
    refine ⟨e1, e2, ?_⟩
    intro hie hoe
    rw [e1, e2, hie, hoe]
    simp

/-- C2 witness: two successful calls from a flushed database record
exactly the two rendered inputs and the two keys, in order; a
wrong-signature call raises and records nothing. -/
theorem call_history_success_only_pairing_witness :
    (call_history storeName (storeMethod "00000000-0000-4000-8000-000000000000")
        [] [] (⟨[]⟩ : RedisState) = (.error .typeError, ⟨[]⟩)) ∧
    listsOf (iterateHistoryStore
        [⟨"00000000-0000-4000-8000-000000000000", [.vstr "a"], []⟩,
         ⟨"11111111-1111-4111-8111-111111111111", [.vstr "b"], []⟩]
        (⟨[]⟩ : RedisState)) inputsKey =
      [utf8Encode (pyStrTuple [.vstr "a"]), utf8Encode (pyStrTuple [.vstr "b"])] ∧
    listsOf (iterateHistoryStore
        [⟨"00000000-0000-4000-8000-000000000000", [.vstr "a"], []⟩,
         ⟨"11111111-1111-4111-8111-111111111111", [.vstr "b"], []⟩]
        (⟨[]⟩ : RedisState)) outputsKey =
      [utf8Encode "00000000-0000-4000-8000-000000000000",
       utf8Encode "11111111-1111-4111-8111-111111111111"] := by
  refine ⟨?_, ?_, ?_⟩
  · exact (call_history_success_only_pairing.1 "00000000-0000-4000-8000-000000000000"
      [] [] ⟨[]⟩ .typeError ⟨[]⟩ rfl).1
  · have h := (call_history_success_only_pairing.2
      [⟨"00000000-0000-4000-8000-000000000000", [.vstr "a"], []⟩,
       ⟨"11111111-1111-4111-8111-111111111111", [.vstr "b"], []⟩] ⟨[]⟩
      (by
        intro c hc
        simp only [List.mem_cons, List.mem_singleton] at hc
        rcases hc with hc | hc | hc
        · subst hc; exact ⟨by decide, by decide⟩
        · subst hc; exact ⟨by decide, by decide⟩
        · exact absurd hc (by simp)) trivial trivial).1
    simpa using h
  · have h := (call_history_success_only_pairing.2
      [⟨"00000000-0000-4000-8000-000000000000", [.vstr "a"], []⟩,
       ⟨"11111111-1111-4111-8111-111111111111", [.vstr "b"], []⟩] ⟨[]⟩
      (by
        intro c hc
        simp only [List.mem_cons, List.mem_singleton] at hc
        rcases hc with hc | hc | hc
        · subst hc; exact ⟨by decide, by decide⟩
        · subst hc; exact ⟨by decide, by decide⟩
        · exact absurd hc (by simp)) trivial trivial).2.1
    simpa using h

/-- C10: keyword arguments leave no trace in the recorded inputs: the
entry appended to the inputs list is the text of the positional
argument tuple only, two calls differing only in their keyword
arguments append identical entries to both history lists, and the
keyword arguments are still passed through to the wrapped operation
(the bound `data` value is what gets stored). -/
theorem call_history_kwargs_invisible (u : String) (args : List PyVal)
    (kwargs kwargs' : List (String × PyVal)) (d d' : PyVal) (st : RedisState)
    (hu : isUuidFormat u = true)
    (hd : storeDataOf args kwargs = some d) (hd' : storeDataOf args kwargs' = some d')
    (hin : listKeyOk st inputsKey) (hout : listKeyOk st outputsKey) :
    listsOf (call_history storeName (storeMethod u) args kwargs st).2 inputsKey =
      listsOf st inputsKey ++ [utf8Encode (pyStrTuple args)] ∧
    listsOf (call_history storeName (storeMethod u) args kwargs st).2 inputsKey =
      listsOf (call_history storeName (storeMethod u) args kwargs' st).2 inputsKey ∧
    listsOf (call_history storeName (storeMethod u) args kwargs st).2 outputsKey =
      listsOf (call_history storeName (storeMethod u) args kwargs' st).2 outputsKey ∧
    rlookup ((call_history storeName (storeMethod u) args kwargs st).2).db u =
      some (.rstr (encodeVal d)) := by
  obtain ⟨st3, hcall, hl1, hl2, _, _, hlu, _⟩ :=
    historyStore_step u args kwargs d st hu hd hin hout
  obtain ⟨st3', hcall', hl1', hl2', _, _, _, _⟩ :=
    historyStore_step u args kwargs' d' st hu hd' hin hout
  rw [hcall, hcall']
  exact ⟨hl1, by rw [hl1, hl1'], by rw [hl2, hl2'], hlu⟩

/-- C10 witness: `store(data=1)` and `store(data=2)` — same (empty)
positional tuple, different keyword arguments — append identical
`"()"` entries, while the differing keyword value is still stored. -/
theorem call_history_kwargs_invisible_witness :
    listsOf (call_history storeName
        (storeMethod "00000000-0000-4000-8000-000000000000")
        [] [("data", .vint 1)] (⟨[]⟩ : RedisState)).2 inputsKey =
      [utf8Encode "()"] ∧
    listsOf (call_history storeName
        (storeMethod "00000000-0000-4000-8000-000000000000")
        [] [("data", .vint 1)] (⟨[]⟩ : RedisState)).2 inputsKey =
      listsOf (call_history storeName
        (storeMethod "00000000-0000-4000-8000-000000000000")
        [] [("data", .vint 2)] (⟨[]⟩ : RedisState)).2 inputsKey ∧
    rlookup ((call_history storeName
        (storeMethod "00000000-0000-4000-8000-000000000000")
        [] [("data", .vint 1)] (⟨[]⟩ : RedisState)).2).db
        "00000000-0000-4000-8000-000000000000" =
      some (.rstr (encodeVal (.vint 1))) := by
  obtain ⟨h1, h2, _, h4⟩ := call_history_kwargs_invisible
    "00000000-0000-4000-8000-000000000000" [] [("data", .vint 1)] [("data", .vint 2)]
    (.vint 1) (.vint 2) ⟨[]⟩ (by decide) rfl rfl trivial trivial
  exact ⟨by simpa using h1, h2, h4⟩

/-- C3: for every supported value (text, bytes, integer, float),
storing it through the fully decorated `Cache.store` and reading the
returned key back with the matching typed accessor yields the value
again. -/
theorem store_get_roundtrip (v : PyVal) (u : String) (st : RedisState)
    (hu : isUuidFormat u = true) (hc : counterOk st storeName)
    (hin : listKeyOk st inputsKey) (hout : listKeyOk st outputsKey) :
    (Cache.store u [v] [] st).1 = .ok (.vstr u) ∧
    (match v with
      | .vstr s => Cache.get_str (Cache.store u [v] [] st).2 u = .ok s
      | .vbytes b => Cache.get (Cache.store u [v] [] st).2 u
          (none : Option (Option Bytes → Unit)) = .ok (.inl (some b))
      | .vint i => Cache.get_int (Cache.store u [v] [] st).2 u = .ok i
      | .vfloat f => Cache.get (Cache.store u [v] [] st).2 u (some pyFloatFn) =
          .ok (.inr (.ok f))) := by
  obtain ⟨j, st', hincr, hdb⟩ := rincr_of_counterOk st storeName hc
  have hSI : storeName ≠ inputsKey := by decide
  have hSO : storeName ≠ outputsKey := by decide
  have hlook' : ∀ k', storeName ≠ k' → rlookup st'.db k' = rlookup st.db k' := by
    intro k' hk
    rw [hdb, rlookup_assocSet, if_neg hk]
  have hin' : listKeyOk st' inputsKey := listKeyOk_congr st st' _ (hlook' _ hSI) hin
  have hout' : listKeyOk st' outputsKey := listKeyOk_congr st st' _ (hlook' _ hSO) hout
  obtain ⟨st3, hcall, _, _, _, _, hlu, _⟩ :=
    historyStore_step u [v] [] v st' hu rfl hin' hout'
  have hstore : Cache.store u [v] [] st = (.ok (.vstr u), st3) := by
    unfold Cache.store count_calls
    simp only [hincr, hcall]
  refine ⟨by rw [hstore], ?_⟩
  cases v with
  | vstr s =>
    show Cache.get_str (Cache.store u [.vstr s] [] st).2 u = .ok s
    rw [hstore]
    unfold Cache.get_str rget
    simp only [hlu, encodeVal, utf8Decode_encode]
  | vbytes b =>
    show Cache.get (Cache.store u [.vbytes b] [] st).2 u
        (none : Option (Option Bytes → Unit)) = .ok (.inl (some b))
    rw [hstore]
    unfold Cache.get rget
    simp only [hlu, encodeVal]
  | vint i =>
    show Cache.get_int (Cache.store u [.vint i] [] st).2 u = .ok i
    rw [hstore]
    unfold Cache.get_int rget
    simp only [hlu, encodeVal, utf8Decode_encode, decStrToInt_intRepr]
  | vfloat f =>
    show Cache.get (Cache.store u [.vfloat f] [] st).2 u (some pyFloatFn) =
        .ok (.inr (.ok f))
    rw [hstore]
    unfold Cache.get rget pyFloatFn
    simp only [hlu, encodeVal, utf8Decode_encode, pyFloatOfString_floatRepr]

/-- C3 witness: concrete round-trips for all four supported types from
a flushed database. -/
theorem store_get_roundtrip_witness :
    Cache.get_int (Cache.store "00000000-0000-4000-8000-000000000000"
        [.vint 42] [] (⟨[]⟩ : RedisState)).2 "00000000-0000-4000-8000-000000000000" =
      .ok 42 ∧
    Cache.get_str (Cache.store "11111111-1111-4111-8111-111111111111"
        [.vstr "hello"] [] (⟨[]⟩ : RedisState)).2 "11111111-1111-4111-8111-111111111111" =
      .ok "hello" ∧
    Cache.get (Cache.store "22222222-2222-4222-8222-222222222222"
        [.vbytes [0, 255]] [] (⟨[]⟩ : RedisState)).2 "22222222-2222-4222-8222-222222222222"
      (none : Option (Option Bytes → Unit)) = .ok (.inl (some [0, 255])) ∧
    Cache.get (Cache.store "33333333-3333-4333-8333-333333333333"
        [.vfloat (.finite "3.14" (by decide))] [] (⟨[]⟩ : RedisState)).2
      "33333333-3333-4333-8333-333333333333" (some pyFloatFn) =
      .ok (.inr (.ok (.finite "3.14" (by decide)))) := by
  refine ⟨?_, ?_, ?_, ?_⟩
  · exact (store_get_roundtrip (.vint 42) "00000000-0000-4000-8000-000000000000"
      ⟨[]⟩ (by decide) trivial trivial trivial).2
  · exact (store_get_roundtrip (.vstr "hello") "11111111-1111-4111-8111-111111111111"
      ⟨[]⟩ (by decide) trivial trivial trivial).2
  · exact (store_get_roundtrip (.vbytes [0, 255]) "22222222-2222-4222-8222-222222222222"
      ⟨[]⟩ (by decide) trivial trivial trivial).2
  · exact (store_get_roundtrip (.vfloat (.finite "3.14" (by decide)))
      "33333333-3333-4333-8333-333333333333" ⟨[]⟩ (by decide) trivial trivial trivial).2

/-- C4: `replay` pairs the stored inputs and outputs positionally (the
pairing stops at the shorter list, with no error on mismatch) and
prints a header with the operation name and call count followed by one
`name(*input) -> output` line per pair; in particular an operation
called twice with inputs `('a',)`, `('b',)` and outputs `k1`, `k2`
prints a "called 2 times" header and those two lines. -/
theorem replay_pairs_and_renders (st : RedisState) (fname : String) (nb : Bytes)
    (ins outs : List Bytes)
    (hc : rlookup st.db fname = some (.rstr nb))
    (hi : rlookup st.db (fname ++ ":inputs") = some (.rlist ins))
    (ho : rlookup st.db (fname ++ ":outputs") = some (.rlist outs)) :
    replay st fname =
      .ok ((fname ++ " was called " ++ (utf8Decode nb).getD "0" ++ " times:") ::
        (List.zip ins outs).map (fun p =>
          fname ++ "(*" ++ decodeOr "" p.1 ++ ") -> " ++ decodeOr "" p.2)) ∧
    (∀ lines, replay st fname = .ok lines →
      lines.length = 1 + min ins.length outs.length) ∧
    replay (⟨[("op", .rstr (utf8Encode "2")),
        ("op:inputs", .rlist [utf8Encode (pyStrTuple [.vstr "a"]),
          utf8Encode (pyStrTuple [.vstr "b"])]),
        ("op:outputs", .rlist [utf8Encode "k1", utf8Encode "k2"])]⟩ : RedisState) "op" =
      .ok ["op was called 2 times:",
        "op(*(" ++ String.singleton squote ++ "a" ++ String.singleton squote ++ ",)) -> k1",
        "op(*(" ++ String.singleton squote ++ "b" ++ String.singleton squote ++ ",)) -> k2"] := by
  have h1 : replay st fname =
      .ok ((fname ++ " was called " ++ (utf8Decode nb).getD "0" ++ " times:") ::
        (List.zip ins outs).map (fun p =>
          fname ++ "(*" ++ decodeOr "" p.1 ++ ") -> " ++ decodeOr "" p.2)) := by
    unfold replay rget lrangeAll
    simp only [hc, hi, ho]
  refine ⟨h1, ?_, rfl⟩
  intro lines h
  rw [h1] at h
  simp only [Except.ok.injEq] at h
  subst h
  simp only [List.length_cons, List.length_map, List.length_zip]
  omega

/-- C4 witness: the theorem applied to the concrete two-call state. -/
theorem replay_pairs_and_renders_witness :
    replay (⟨[("op", .rstr (utf8Encode "2")),
        ("op:inputs", .rlist [utf8Encode (pyStrTuple [.vstr "a"]),
          utf8Encode (pyStrTuple [.vstr "b"])]),
        ("op:outputs", .rlist [utf8Encode "k1", utf8Encode "k2"])]⟩ : RedisState) "op" =
      .ok (("op" ++ " was called " ++ (utf8Decode (utf8Encode "2")).getD "0" ++ " times:") ::
        (List.zip [utf8Encode (pyStrTuple [.vstr "a"]), utf8Encode (pyStrTuple [.vstr "b"])]
          [utf8Encode "k1", utf8Encode "k2"]).map (fun p =>
          "op" ++ "(*" ++ decodeOr "" p.1 ++ ") -> " ++ decodeOr "" p.2)) :=
  (replay_pairs_and_renders (⟨[("op", .rstr (utf8Encode "2")),
      ("op:inputs", .rlist [utf8Encode (pyStrTuple [.vstr "a"]),
        utf8Encode (pyStrTuple [.vstr "b"])]),
      ("op:outputs", .rlist [utf8Encode "k1", utf8Encode "k2"])]⟩ : RedisState)
    "op" (utf8Encode "2")
    [utf8Encode (pyStrTuple [.vstr "a"]), utf8Encode (pyStrTuple [.vstr "b"])]
    [utf8Encode "k1", utf8Encode "k2"] rfl rfl rfl).1

/-- C5 counterexample: the claim is false as stated — a counter whose
bytes decode to non-numeric text ("abc" cannot be interpreted as a
count) is not reported as 0; the decoded text is printed verbatim in
the header. -/
theorem replay_counter_text_counterexample :
    decStrToInt "abc" = none ∧
    replay (⟨[("op", .rstr (utf8Encode "abc"))]⟩ : RedisState) "op" =
      .ok ["op was called abc times:"] ∧
    ("op was called abc times:" : String) ≠ "op was called 0 times:" :=
  ⟨rfl, rfl, by decide⟩

/-- C5 (amended): `replay` reports a count of 0 exactly when the
counter is absent or its bytes fail UTF-8 decoding; a counter that
decodes successfully is displayed verbatim, even when non-numeric (the
code never parses it); history entries whose decoding fails are
rendered as empty strings rather than raising. -/
theorem replay_decode_leniency (st : RedisState) (fname : String)
    (ins outs : List Bytes)
    (hi : rlookup st.db (fname ++ ":inputs") = some (.rlist ins))
    (ho : rlookup st.db (fname ++ ":outputs") = some (.rlist outs)) :
    (rlookup st.db fname = none →
      replay st fname = .ok ((fname ++ " was called " ++ "0" ++ " times:") ::
        (List.zip ins outs).map (fun p =>
          fname ++ "(*" ++ decodeOr "" p.1 ++ ") -> " ++ decodeOr "" p.2))) ∧
    (∀ nb, rlookup st.db fname = some (.rstr nb) → utf8Decode nb = none →
      replay st fname = .ok ((fname ++ " was called " ++ "0" ++ " times:") ::
        (List.zip ins outs).map (fun p =>
          fname ++ "(*" ++ decodeOr "" p.1 ++ ") -> " ++ decodeOr "" p.2))) ∧
    (∀ nb s, rlookup st.db fname = some (.rstr nb) → utf8Decode nb = some s →
      replay st fname = .ok ((fname ++ " was called " ++ s ++ " times:") ::
        (List.zip ins outs).map (fun p =>
          fname ++ "(*" ++ decodeOr "" p.1 ++ ") -> " ++ decodeOr "" p.2))) ∧
    (∀ b, utf8Decode b = none → decodeOr "" b = "") ∧
    replay (⟨[("op", .rstr (utf8Encode "1")), ("op:inputs", .rlist [[255]]),
        ("op:outputs", .rlist [utf8Encode "k"])]⟩ : RedisState) "op" =
      .ok ["op was called 1 times:", "op(*) -> k"] := by
  refine ⟨?_, ?_, ?_, ?_, rfl⟩
  · intro h
    unfold replay rget lrangeAll
    simp only [h, hi, ho]
  · intro nb h hdec
    unfold replay rget lrangeAll
    simp only [h, hi, ho, hdec]
    rfl
  · intro nb s h hdec
    unfold replay rget lrangeAll
    simp only [h, hi, ho, hdec]
    rfl
  · intro b h
    unfold decodeOr
    rw [h]
    rfl

/-- C5 witness for the amended claim: absent and undecodable counters
report 0; a decodable counter is shown verbatim. -/
theorem replay_decode_leniency_witness :
    replay (⟨[("x:inputs", .rlist []), ("x:outputs", .rlist [])]⟩ : RedisState) "x" =
      .ok [("x" ++ " was called " ++ "0" ++ " times:")] ∧
    replay (⟨[("x", .rstr [255]), ("x:inputs", .rlist []),
        ("x:outputs", .rlist [])]⟩ : RedisState) "x" =
      .ok [("x" ++ " was called " ++ "0" ++ " times:")] ∧
    replay (⟨[("x", .rstr (utf8Encode "zzz")), ("x:inputs", .rlist []),
        ("x:outputs", .rlist [])]⟩ : RedisState) "x" =
      .ok [("x" ++ " was called " ++ "zzz" ++ " times:")] := by
  refine ⟨?_, ?_, ?_⟩
  · have h := (replay_decode_leniency
      (⟨[("x:inputs", .rlist []), ("x:outputs", .rlist [])]⟩ : RedisState) "x"
      [] [] rfl rfl).1 rfl
    simpa using h
  · have h := ((replay_decode_leniency
      (⟨[("x", .rstr [255]), ("x:inputs", .rlist []),
        ("x:outputs", .rlist [])]⟩ : RedisState) "x" [] [] rfl rfl).2.1) [255] rfl rfl
    simpa using h
  · have h := ((replay_decode_leniency
      (⟨[("x", .rstr (utf8Encode "zzz")), ("x:inputs", .rlist []),
        ("x:outputs", .rlist [])]⟩ : RedisState) "x" [] [] rfl rfl).2.2.1)
      (utf8Encode "zzz") "zzz" rfl (utf8Decode_encode "zzz")
    simpa using h

/-- C6: `Cache.get_int` returns the integer parsed from the payload's
UTF-8 decoding when decoding and parsing succeed, and returns 0 —
never propagating an error — when the key is absent, the bytes fail to
decode, or the text fails to parse: "42" gives 42, a missing key gives
0, "abc" gives 0. -/
theorem get_int_lenient (st : RedisState) (k : String) :
    (∀ b s i, rlookup st.db k = some (.rstr b) → utf8Decode b = some s →
      decStrToInt s = some i → Cache.get_int st k = .ok i) ∧
    (rlookup st.db k = none → Cache.get_int st k = .ok 0) ∧
    (∀ b, rlookup st.db k = some (.rstr b) → utf8Decode b = none →
      Cache.get_int st k = .ok 0) ∧
    (∀ b s, rlookup st.db k = some (.rstr b) → utf8Decode b = some s →
      decStrToInt s = none → Cache.get_int st k = .ok 0) ∧
    Cache.get_int (⟨[("k", .rstr (utf8Encode "42"))]⟩ : RedisState) "k" = .ok 42 ∧
    Cache.get_int (⟨[]⟩ : RedisState) "k" = .ok 0 ∧
    Cache.get_int (⟨[("k", .rstr (utf8Encode "abc"))]⟩ : RedisState) "k" = .ok 0 := by
  refine ⟨?_, ?_, ?_, ?_, rfl, rfl, rfl⟩
  · intro b s i h hdec hparse
    unfold Cache.get_int rget
    simp only [h, hdec, hparse]
  · intro h
    unfold Cache.get_int rget
    simp only [h]
  · intro b h hdec
    unfold Cache.get_int rget
    simp only [h, hdec]
  · intro b s h hdec hparse
    unfold Cache.get_int rget
    simp only [h, hdec, hparse]

/-- C6 witness: the parse case at "42" and the undecodable-bytes case. -/
theorem get_int_lenient_witness :
    Cache.get_int (⟨[("w", .rstr (utf8Encode "42"))]⟩ : RedisState) "w" = .ok 42 ∧
    Cache.get_int (⟨[("w", .rstr [255])]⟩ : RedisState) "w" = .ok 0 := by
  constructor
  · exact (get_int_lenient (⟨[("w", .rstr (utf8Encode "42"))]⟩ : RedisState) "w").1
      (utf8Encode "42") "42" 42 rfl (utf8Decode_encode "42") rfl
  · exact (get_int_lenient (⟨[("w", .rstr [255])]⟩ : RedisState) "w").2.2.1 [255] rfl rfl

/-- C7: `Cache.get_str` returns the UTF-8 decoding of the payload when
it is valid UTF-8, and fails — rather than returning any default —
when the key is absent (`AttributeError`) or the payload is not valid
UTF-8 (`UnicodeDecodeError`): "hello" gives "hello", a missing key
fails. -/
theorem get_str_strict (st : RedisState) (k : String) :
    (∀ b s, rlookup st.db k = some (.rstr b) → utf8Decode b = some s →
      Cache.get_str st k = .ok s) ∧
    (∀ s, rlookup st.db k = some (.rstr (utf8Encode s)) → Cache.get_str st k = .ok s) ∧
    (rlookup st.db k = none → Cache.get_str st k = .error .attrError) ∧
    (∀ b, rlookup st.db k = some (.rstr b) → utf8Decode b = none →
      Cache.get_str st k = .error .unicodeError) ∧
    Cache.get_str (⟨[("k", .rstr (utf8Encode "hello"))]⟩ : RedisState) "k" = .ok "hello" ∧
    Cache.get_str (⟨[]⟩ : RedisState) "k" = .error .attrError := by
  refine ⟨?_, ?_, ?_, ?_, rfl, rfl⟩
  · intro b s h hdec
    unfold Cache.get_str rget
    simp only [h, hdec]
  · intro s h
    unfold Cache.get_str rget
    simp only [h, utf8Decode_encode]
  · intro h
    unfold Cache.get_str rget
    simp only [h]
  · intro b h hdec
    unfold Cache.get_str rget
    simp only [h, hdec]

/-- C7 witness: decode success at "hello", failure on a missing key and
on invalid UTF-8. -/
theorem get_str_strict_witness :
    Cache.get_str (⟨[("w", .rstr (utf8Encode "hello"))]⟩ : RedisState) "w" = .ok "hello" ∧
    Cache.get_str (⟨[]⟩ : RedisState) "w" = .error .attrError ∧
    Cache.get_str (⟨[("w", .rstr [255])]⟩ : RedisState) "w" = .error .unicodeError := by
  refine ⟨?_, ?_, ?_⟩
  · exact (get_str_strict (⟨[("w", .rstr (utf8Encode "hello"))]⟩ : RedisState) "w").2.1
      "hello" rfl
  · exact (get_str_strict (⟨[]⟩ : RedisState) "w").2.2.1 rfl
  · exact (get_str_strict (⟨[("w", .rstr [255])]⟩ : RedisState) "w").2.2.2.1 [255] rfl rfl

/-- C8: `Cache.get` with no decode function returns the raw payload
unmodified (the missing sentinel `none` when the key is absent); with a
decode function it returns the function applied to the raw payload,
including applying it to the missing sentinel. -/
theorem get_raw_or_decoded {α : Type} (st : RedisState) (k : String)
    (f : Option Bytes → α) :
    (∀ b, rlookup st.db k = some (.rstr b) →
      Cache.get st k (none : Option (Option Bytes → α)) = .ok (.inl (some b)) ∧
      Cache.get st k (some f) = .ok (.inr (f (some b)))) ∧
    (rlookup st.db k = none →
      Cache.get st k (none : Option (Option Bytes → α)) = .ok (.inl none) ∧
      Cache.get st k (some f) = .ok (.inr (f none))) := by
  constructor
  · intro b h
    unfold Cache.get rget
    simp only [h]
    exact ⟨trivial, trivial⟩
  · intro h
    unfold Cache.get rget
    simp only [h]
    exact ⟨trivial, trivial⟩

/-- C8 witness: raw and decoded reads on a present and an absent key,
the decode function seeing the missing sentinel. -/
theorem get_raw_or_decoded_witness :
    Cache.get (⟨[("w", .rstr [1, 2])]⟩ : RedisState) "w"
      (none : Option (Option Bytes → Nat)) = .ok (.inl (some [1, 2])) ∧
    Cache.get (⟨[("w", .rstr [1, 2])]⟩ : RedisState) "w"
      (some (fun p => p.getD [])) = .ok (.inr [1, 2]) ∧
    Cache.get (⟨[]⟩ : RedisState) "w"
      (some (fun p : Option Bytes => p.isSome)) = .ok (.inr false) := by
  refine ⟨?_, ?_, ?_⟩
  · exact (((get_raw_or_decoded (⟨[("w", .rstr [1, 2])]⟩ : RedisState) "w"
      (fun p : Option Bytes => (0 : Nat))).1) [1, 2] rfl).1
  · exact (((get_raw_or_decoded (⟨[("w", .rstr [1, 2])]⟩ : RedisState) "w"
      (fun p : Option Bytes => p.getD [])).1) [1, 2] rfl).2
  · exact (((get_raw_or_decoded (⟨[]⟩ : RedisState) "w"
      (fun p : Option Bytes => p.isSome)).2) rfl).2

/-- C9: constructing the facade flushes the backing store: any key
written before construction reads back as the missing sentinel
afterwards, and in fact every key is absent after construction. -/
theorem init_flushes (st : RedisState) (k : String) (v : Bytes) :
    Cache.get (Cache.init (rset st k v)) k (none : Option (Option Bytes → Unit)) =
      .ok (.inl none) ∧
    (∀ k', rget (Cache.init st) k' = .ok none) := by
  constructor
  · rfl
  · intro k'
    rfl
